import Mathlib

/-!
Verification of the Slack-bot Lambda backend (src/lambda): the event
ingestion router and classifier (index.py), the markdown transcoder and
Bedrock streaming bridge (listeners/llm_caller.py), and the conversation
context builder (listeners/assistant.py).

The Python code is shallowly embedded: JSON-shaped data is the inductive
type Json, Lambda events are JSON objects (association lists), fallible
Python operations return Except PyError, and the enqueue/streaming side
effects are made explicit as result values and call traces.
-/

/-- JSON values as produced by the Python json module, restricted to the
constructs the events use: null, booleans, integer numbers, strings,
arrays and (ordered) objects. -/
inductive Json where
  | null
  | bool (b : Bool)
  | num (n : Int)
  | str (s : String)
  | arr (xs : List Json)
  | obj (ps : List (String × Json))

/-- The left brace character (written numerically to keep JSON text out of
character literals). -/
def lbrace : Char := Char.ofNat 123

/-- The right brace character. -/
def rbrace : Char := Char.ofNat 125

/-- JSON string escaping of one character: the double quote and the
backslash are escaped, anything else is emitted verbatim.  This models
the escapes of Python json.dumps that the round-trip property rests on;
control-character and non-ASCII escaping are not modelled. -/
def escChar (c : Char) : List Char :=
  if c = '"' ∨ c = '\\' then ['\\', c] else [c]

/-- JSON string escaping of a character sequence. -/
def escapeChars (cs : List Char) : List Char := cs.flatMap escChar

/-- A JSON string literal: quote, escaped body, quote. -/
def printStr (s : String) : List Char :=
  '"' :: escapeChars s.toList ++ ['"']

/-- The decimal digit character for d < 10. -/
def digitChar (d : Nat) : Char := Char.ofNat (48 + d)

/-- Decimal printing of a natural number, most significant digit first.
The first argument is recursion fuel; any fuel above the argument works. -/
def printNatAux : Nat → Nat → List Char
  | 0, _ => []
  | fuel + 1, n =>
    if n < 10 then [digitChar n]
    else printNatAux fuel (n / 10) ++ [digitChar (n % 10)]

/-- Decimal printing of a natural number. -/
def printNat (n : Nat) : List Char := printNatAux (n + 1) n

/-- Decimal printing of an integer, as json.dumps prints Python ints. -/
def printInt (n : Int) : List Char :=
  if n < 0 then '-' :: printNat n.natAbs else printNat n.natAbs

/-- The serialized null literal. -/
def nullChars : List Char := "null".toList

/-- The serialized true literal. -/
def trueChars : List Char := "true".toList

/-- The serialized false literal. -/
def falseChars : List Char := "false".toList

mutual

/-- Serialization of a Json value, modelling Python json.dumps with its
default separators: ", " between items and ": " after keys, no other
whitespace.  index.py line 126 serializes the whole Lambda event this
way before enqueueing it. -/
def printJson : Json → List Char
  | .null => nullChars
  | .bool true => trueChars
  | .bool false => falseChars
  | .num n => printInt n
  | .str s => printStr s
  | .arr [] => ['[', ']']
  | .arr (x :: xs) => '[' :: (printJson x ++ printArrTail xs)
  | .obj [] => [lbrace, rbrace]
  | .obj ((k, v) :: ps) =>
      lbrace :: (printStr k ++ ':' :: ' ' :: printJson v ++ printObjTail ps)

/-- Serialization of the items of an array after the first one. -/
def printArrTail : List Json → List Char
  | [] => [']']
  | x :: xs => ',' :: ' ' :: (printJson x ++ printArrTail xs)

/-- Serialization of the members of an object after the first one. -/
def printObjTail : List (String × Json) → List Char
  | [] => [rbrace]
  | (k, v) :: ps => ',' :: ' ' :: (printStr k ++ ':' :: ' ' :: printJson v ++ printObjTail ps)

end

/-- json.dumps on the modelled Json fragment. -/
def dumps (j : Json) : String := String.mk (printJson j)

/-- JSON insignificant whitespace. -/
def isJsonWs (c : Char) : Bool :=
  c = ' ' || c = '\t' || c = '\n' || c = '\r'

/-- Drop leading JSON whitespace. -/
def skipWs (cs : List Char) : List Char := cs.dropWhile isJsonWs

/-- Parse the body of a JSON string literal after its opening quote, up to
and including the closing quote, decoding the quote and backslash
escapes that the printer emits. -/
def parseStrBody : List Char → Option (List Char × List Char)
  | [] => none
  | c :: cs =>
    if c = '"' then some ([], cs)
    else if c = '\\' then
      match cs with
      | [] => none
      | e :: cs' =>
        if e = '"' ∨ e = '\\' then
          (parseStrBody cs').map (fun r => (e :: r.1, r.2))
        else none
    else (parseStrBody cs).map (fun r => (c :: r.1, r.2))

/-- Consume a maximal run of decimal digits, accumulating their value. -/
def parseDigits (acc : Nat) : List Char → Nat × List Char
  | [] => (acc, [])
  | c :: cs =>
    if c.isDigit then parseDigits (acc * 10 + (c.toNat - 48)) cs
    else (acc, c :: cs)

mutual

/-- Parse one JSON value, modelling Python json.loads on the same fragment
the printer emits (whitespace-tolerant at value and item boundaries).
The first argument is recursion fuel; input length plus two always
suffices. -/
def parseVal : Nat → List Char → Option (Json × List Char)
  | 0, _ => none
  | f + 1, cs =>
    match skipWs cs with
    | [] => none
    | c :: t =>
      if c = 'n' then
        match t with
        | 'u' :: 'l' :: 'l' :: r => some (.null, r)
        | _ => none
      else if c = 't' then
        match t with
        | 'r' :: 'u' :: 'e' :: r => some (.bool true, r)
        | _ => none
      else if c = 'f' then
        match t with
        | 'a' :: 'l' :: 's' :: 'e' :: r => some (.bool false, r)
        | _ => none
      else if c = '"' then
        (parseStrBody t).map (fun r => (.str (String.mk r.1), r.2))
      else if c = '[' then
        match skipWs t with
        | [] => none
        | c2 :: t2 =>
          if c2 = ']' then some (.arr [], t2)
          else
            match parseVal f (c2 :: t2) with
            | some (v, r1) =>
              (parseArrTail f r1).map (fun r2 => (.arr (v :: r2.1), r2.2))
            | none => none
      else if c = lbrace then
        match skipWs t with
        | [] => none
        | c2 :: t2 =>
          if c2 = rbrace then some (.obj [], t2)
          else if c2 = '"' then
            match parseStrBody t2 with
            | some (k, r1) =>
              match r1 with
              | ':' :: r2 =>
                match parseVal f r2 with
                | some (v, r3) =>
                  (parseObjTail f r3).map
                    (fun r4 => (.obj ((String.mk k, v) :: r4.1), r4.2))
                | none => none
              | _ => none
            | none => none
          else none
      else if c = '-' then
        match t with
        | d :: t2 =>
          if d.isDigit then
            let p := parseDigits (d.toNat - 48) t2
            some (.num (-(p.1 : Int)), p.2)
          else none
        | [] => none
      else if c.isDigit then
        let p := parseDigits (c.toNat - 48) t
        some (.num (p.1 : Int), p.2)
      else none

/-- Parse the remainder of a JSON array after one item: either the closing
bracket or a comma followed by another item. -/
def parseArrTail : Nat → List Char → Option (List Json × List Char)
  | 0, _ => none
  | f + 1, cs =>
    match skipWs cs with
    | [] => none
    | c :: t =>
      if c = ']' then some ([], t)
      else if c = ',' then
        match parseVal f t with
        | some (v, r1) =>
          (parseArrTail f r1).map (fun r2 => (v :: r2.1, r2.2))
        | none => none
      else none

/-- Parse the remainder of a JSON object after one member. -/
def parseObjTail : Nat → List Char → Option (List (String × Json) × List Char)
  | 0, _ => none
  | f + 1, cs =>
    match skipWs cs with
    | [] => none
    | c :: t =>
      if c = rbrace then some ([], t)
      else if c = ',' then
        match skipWs t with
        | c2 :: t2 =>
          if c2 = '"' then
            match parseStrBody t2 with
            | some (k, r1) =>
              match r1 with
              | ':' :: r2 =>
                match parseVal f r2 with
                | some (v, r3) =>
                  (parseObjTail f r3).map
                    (fun r4 => ((String.mk k, v) :: r4.1, r4.2))
                | none => none
              | _ => none
            | none => none
          else none
        | [] => none
      else none

end

/-- json.loads on the modelled fragment: parse one value and require that
nothing but whitespace follows.  Inputs outside the modelled fragment
(floats, unicode escapes, ...) come back as none, which the handler
treats like a JSONDecodeError. -/
def loads (s : String) : Option Json :=
  let cs := s.toList
  match parseVal (cs.length + 2) cs with
  | some (j, rest) => if skipWs rest = [] then some j else none
  | none => none

/-- A Lambda event is a parsed JSON object: an ordered association list,
as Python dicts preserve insertion order. -/
abbrev JObj := List (String × Json)

/-- Python dict lookup (dict.get / the "in" test on keys). -/
def lookupKey : JObj → String → Option Json
  | [], _ => none
  | (k', v) :: ps, k => if k' = k then some v else lookupKey ps k

/-- Python "key in dict". -/
def hasKey (ps : JObj) (k : String) : Bool := (lookupKey ps k).isSome

/-- Python truthiness of an optional JSON value: None, null, False, 0, the
empty string and empty containers are falsy. -/
def pyTruthy : Option Json → Bool
  | none => false
  | some .null => false
  | some (.bool b) => b
  | some (.num n) => n != 0
  | some (.str s) => s != ""
  | some (.arr xs) => !xs.isEmpty
  | some (.obj ps) => !ps.isEmpty

/-- Python "x is None" for an optional JSON value: an absent key and an
explicit null both read back as None. -/
def pyIsNone : Option Json → Bool
  | none => true
  | some .null => true
  | some _ => false

/-- The Python exceptions the embedded code can raise. -/
inductive PyError where
  | indexError
  | attributeError
  | typeError
  | keyError
deriving DecidableEq

/-- Substring test, modelling Python "needle in haystack" on strings. -/
def containsSeq (needle : List Char) : List Char → Bool
  | [] => needle.isEmpty
  | c :: rest => needle.isPrefixOf (c :: rest) || containsSeq needle rest

/-- Python "key in value" for an arbitrary JSON value: key membership on
dicts, substring on strings, element equality on lists, and a TypeError
on anything not iterable. -/
def jsonHasMember (key : String) : Json → Except PyError Bool
  | .obj ps => .ok (hasKey ps key)
  | .str s => .ok (containsSeq key.toList s.toList)
  | .arr xs => .ok (xs.any fun x => match x with | .str s => s == key | _ => false)
  | _ => .error .typeError

/-- Python "value.get(key)": defined on dicts, an AttributeError on any
other value. -/
def jsonGet : Json → String → Except PyError (Option Json)
  | .obj ps, k => .ok (lookupKey ps k)
  | _, _ => .error .attributeError

/-- Python str.endswith. -/
def pyEndsWith (s suffix : String) : Bool :=
  suffix.toList.reverse.isPrefixOf s.toList.reverse

/-- detect_event_type (index.py lines 143-160): if a requestContext field
is present, an http substructure with a truthy domainName means a
Function URL event, an http substructure alone means API Gateway v2, and
a legacy httpMethod field (nested or at the top level) means API Gateway
v1; everything else is unknown.  Note that all three positive outcomes
sit inside the requestContext check. -/
def detect_event_type (event : JObj) : Except PyError String :=
  match lookupKey event "requestContext" with
  | some rc =>
    (jsonHasMember "http" rc).bind fun hasHttp =>
    if hasHttp then
      (jsonGet rc "domainName").bind fun dn =>
        if pyTruthy dn then .ok "function_url"
        else .ok "api_gateway_v2"
    else
      (jsonHasMember "httpMethod" rc).bind fun hasHm =>
        if hasHm || hasKey event "httpMethod" then .ok "api_gateway_v1"
        else .ok "unknown"
  | none => .ok "unknown"

/-- The Lambda invocation context; only the request id is used (as the
SQS FIFO message group id, index.py line 128). -/
structure LambdaCtx where
  aws_request_id : String

/-- The handler's environment: the optional SQS_QUEUE_URL variable
(index.py line 122). -/
structure RouterEnv where
  sqs_queue_url : Option String

/-- An HTTP response as the handler returns it: status code, headers and
an optional body (the challenge value may be any JSON value or absent). -/
structure HttpResponse where
  statusCode : Nat
  headers : List (String × String)
  body : Option Json

/-- The observable outcome of one handler invocation: dispatch of a batch
to the SQS record processor, a direct response together with the list of
messages sent to SQS (message body and optional group id), or the
synchronous fallback through SlackRequestHandler when no queue is
configured. -/
inductive HandlerResult where
  | batch (records : Json)
  | respond (r : HttpResponse) (enqueued : List (String × Option String))
  | fallbackSync

/-- The SQS-batch test of index.py lines 74-77:
"Records" in event and event.get("Records", [{}])[0].get("eventSource")
== "aws:sqs".  An empty Records list makes the [0] subscript raise an
IndexError; a first record that is not a dict makes .get raise an
AttributeError.  (Subscripting a non-list Records value raises a
type-dependent Python exception, modelled uniformly as a TypeError.) -/
def recordsIsBatch (event : JObj) : Except PyError Bool :=
  match lookupKey event "Records" with
  | none => .ok false
  | some (.arr []) => .error .indexError
  | some (.arr (r :: _)) =>
    (jsonGet r "eventSource").map fun es =>
      match es with
      | some (.str s) => s == "aws:sqs"
      | _ => false
  | some _ => .error .typeError

/-- The URL-verification test of index.py lines 106-118: when the body is
truthy, json.loads it (a parse failure is swallowed) and look for type
"url_verification"; on a hit, return the challenge value.  A body that
parses to a non-dict makes body_json.get raise an uncaught
AttributeError; json.loads of a truthy non-string raises a TypeError. -/
def handshakeCheck : Option Json → Except PyError (Option (Option Json))
  | none => .ok none
  | some (.str s) =>
    if s = "" then .ok none
    else
      match loads s with
      | none => .ok none
      | some (.obj o) =>
        match lookupKey o "type" with
        | some (.str t) =>
          if t = "url_verification" then .ok (some (lookupKey o "challenge"))
          else .ok none
        | _ => .ok none
      | some _ => .error .attributeError
  | some v => if pyTruthy (some v) then .error .typeError else .ok none

/-- The tail of the direct path (index.py lines 120-140): with a truthy
queue URL configured, send the whole original event, JSON-encoded, to
SQS (group id = the invocation's request id iff the queue is FIFO) and
acknowledge with an empty 200; otherwise fall back to synchronous
processing. -/
def enqueueOrFallback (env : RouterEnv) (ctx : LambdaCtx) (event : JObj) : HandlerResult :=
  match env.sqs_queue_url with
  | some url =>
    if url ≠ "" then
      .respond ⟨200, [], some (.str "")⟩
        [(dumps (.obj event),
          if pyEndsWith url ".fifo" then some ctx.aws_request_id else none)]
    else .fallbackSync
  | none => .fallbackSync

/-- handler (index.py lines 63-140): the SQS-batch path, else classify,
extract the body (all three recognized shapes read event.get("body")),
answer a URL-verification handshake synchronously, and otherwise enqueue
or fall back; an unrecognized shape gets a 400. -/
def handler (env : RouterEnv) (ctx : LambdaCtx) (event : JObj) :
    Except PyError HandlerResult :=
  (recordsIsBatch event).bind fun isBatch =>
  if isBatch then
    .ok (.batch ((lookupKey event "Records").getD .null))
  else
    (detect_event_type event).bind fun et =>
    if et = "function_url" || et = "api_gateway_v1" || et = "api_gateway_v2" then
      (handshakeCheck (lookupKey event "body")).bind fun hs =>
      match hs with
      | some challenge => .ok (.respond ⟨200, [("x-slack-no-retry", "1")], challenge⟩ [])
      | none => .ok (enqueueOrFallback env ctx event)
    else
      .ok (.respond ⟨400, [], some (.str "Unknown event type")⟩ [])

/-- The deserialization step of record_handler (index.py line 41): the SQS
message body is json.loads back into the original Lambda event. -/
def record_handler_event (body : String) : Option Json := loads body

/-- Classification as the amended claim C1 states it, following the spec's
words with the one forced change: the request-context field must itself
be present (the code never classifies gateway_v1 from a top-level legacy
method field alone), and the domain attribute must be truthy. -/
def detectSpecAmended (event : JObj) : String :=
  match lookupKey event "requestContext" with
  | some (.obj rc) =>
    if hasKey rc "http" && pyTruthy (lookupKey rc "domainName") then "function_url"
    else if hasKey rc "http" then "api_gateway_v2"
    else if hasKey rc "httpMethod" || hasKey event "httpMethod" then "api_gateway_v1"
    else "unknown"
  | some _ => "unknown"
  | none => "unknown"

/-- A Function-URL-shaped event carrying a URL-verification handshake. -/
def demoHandshakeEvent : JObj :=
  [("requestContext", Json.obj
      [("http", Json.obj [("method", Json.str "POST")]),
       ("domainName", Json.str "abc.lambda-url.us-east-1.on.aws")]),
   ("body", Json.str "\x7b\"type\": \"url_verification\", \"challenge\": \"abc123\"\x7d")]

/-- An API-Gateway-v2-shaped event with a non-JSON body, taking the
enqueue path. -/
def demoEnqueueEvent : JObj :=
  [("requestContext", Json.obj [("http", Json.obj [("method", Json.str "POST")])]),
   ("body", Json.str "x")]

/-- The backtick character (written numerically; backticks cannot appear
in character literals here). -/
def btChar : Char := Char.ofNat 96

/-- Does the text start with three backticks? -/
def startsWithBt3 : List Char → Bool
  | a :: b :: c :: _ => a = btChar && b = btChar && c = btChar
  | _ => false

/-- Find the closing fence for an open triple-backtick block: the lazy
quantifier of the split pattern (?s)(```.+?```|...) closes at the first
triple backtick that leaves at least one content character. -/
def findFenceClose : List Char → List Char → Option (List Char × List Char)
  | _, [] => none
  | acc, c :: rest =>
    if startsWithBt3 (c :: rest) && !acc.isEmpty then
      some (acc.reverse, (c :: rest).drop 3)
    else findFenceClose (c :: acc) rest

/-- Match a fenced code block at the current position; on success return
the full matched span (delimiters included) and the rest. -/
def matchFence : List Char → Option (List Char × List Char)
  | a :: b :: c :: t =>
    if a = btChar && b = btChar && c = btChar then
      (findFenceClose [] t).map fun r =>
        (btChar :: btChar :: btChar :: (r.1 ++ [btChar, btChar, btChar]), r.2)
    else none
  | _ => none

/-- Find the closing backtick of an inline code span: the content is one
or more characters that are neither backticks nor newlines (the pattern
is the alternative backtick-[^backtick-newline]+?-backtick). -/
def findInlineClose : List Char → List Char → Option (List Char × List Char)
  | _, [] => none
  | acc, c :: rest =>
    if c = btChar then
      if acc.isEmpty then none else some (acc.reverse, rest)
    else if c = '\n' then none
    else findInlineClose (c :: acc) rest

/-- Match an inline code span at the current position. -/
def matchInline : List Char → Option (List Char × List Char)
  | [] => none
  | c :: t =>
    if c = btChar then
      (findInlineClose [] t).map fun r => (btChar :: (r.1 ++ [btChar]), r.2)
    else none

/-- One part of the re.split result: plain text between matches, or a
captured code-span separator. -/
inductive MdPart where
  | text (cs : List Char)
  | code (cs : List Char)

/-- The characters of a part, forgetting the tag: re.split returns the
flat alternating list. -/
def MdPart.content : MdPart → List Char
  | .text cs => cs
  | .code cs => cs

/-- re.split of llm_caller.py line 22 with its capturing group: scan left
to right, preferring a fenced block over an inline span at each
position; text between (and around) matches is kept, including empty
pieces.  Fuel bounds the scan; input length plus one always suffices. -/
def splitCodeSpans : Nat → List Char → List Char → List MdPart
  | 0, acc, cs => [.text (acc.reverse ++ cs)]
  | fuel + 1, acc, cs =>
    match cs with
    | [] => [.text acc.reverse]
    | c :: rest =>
      match matchFence (c :: rest) with
      | some (sep, r) => .text acc.reverse :: .code sep :: splitCodeSpans fuel [] r
      | none =>
        match matchInline (c :: rest) with
        | some (sep, r) => .text acc.reverse :: .code sep :: splitCodeSpans fuel [] r
        | none => splitCodeSpans fuel (c :: acc) rest

/-- Python regex whitespace for the lookarounds. -/
def isPyWs (c : Char) : Bool :=
  c = ' ' || c = '\t' || c = '\n' || c = '\r' || c = '\x0b' || c = '\x0c'

/-- One substitution of the table at llm_caller.py lines 30-42: opening
and closing delimiters, the character excluded from the content class
(the content class is everything but that character and newline), the
lookbehind on the character before the opening delimiter, the lookahead
on the text after the closing delimiter, and the replacement wrappers. -/
structure SubRule where
  openDelim : List Char
  closeDelim : List Char
  excl : Char
  checkPrev : Option Char → Bool
  checkNext : List Char → Bool
  wrapL : List Char
  wrapR : List Char

/-- Strip an expected prefix, or fail. -/
def dropPrefixIfEq : List Char → List Char → Option (List Char)
  | [], cs => some cs
  | _ :: _, [] => none
  | d :: ds, c :: cs => if c = d then dropPrefixIfEq ds cs else none

/-- Scan the span content up to the first occurrence of the excluded
delimiter character; fail at a newline or at the end of input.  Because
the content class excludes the delimiter character, the lazy quantifier
has exactly this one candidate. -/
def scanContent (excl : Char) : List Char → List Char → Option (List Char × List Char)
  | _, [] => none
  | acc, c :: rest =>
    if c = excl then some (acc.reverse, c :: rest)
    else if c = '\n' then none
    else scanContent excl (c :: acc) rest

/-- Try one substitution rule at the current position: lookbehind, opening
delimiter, non-empty content whose first and last characters are not
whitespace (the (?!\s) and (?<!\s) guards), closing delimiter,
lookahead; on success return the replacement and the rest. -/
def tryRule (rule : SubRule) (prev : Option Char) (cs : List Char) :
    Option (List Char × List Char) :=
  if !rule.checkPrev prev then none
  else
    match dropPrefixIfEq rule.openDelim cs with
    | none => none
    | some t =>
      match scanContent rule.excl [] t with
      | none => none
      | some (content, t') =>
        match content.head?, content.getLast? with
        | some c0, some c1 =>
          if isPyWs c0 || isPyWs c1 then none
          else
            match dropPrefixIfEq rule.closeDelim t' with
            | none => none
            | some t2 =>
              if rule.checkNext t2 then some (rule.wrapL ++ content ++ rule.wrapR, t2)
              else none
        | _, _ => none

/-- re.sub for one rule: scan left to right, replacing non-overlapping
matches and otherwise copying one character; the previous original
character is tracked for the lookbehind.  Fuel bounds the scan. -/
def subPass (rule : SubRule) : Nat → Option Char → List Char → List Char
  | 0, _, cs => cs
  | fuel + 1, prev, cs =>
    match cs with
    | [] => []
    | c :: rest =>
      match tryRule rule prev (c :: rest) with
      | some (out, rest') =>
        out ++ subPass rule fuel rule.closeDelim.getLast? rest'
      | none => c :: subPass rule fuel (some c) rest

/-- Run one substitution over a whole text. -/
def runRule (rule : SubRule) (cs : List Char) : List Char :=
  subPass rule (cs.length + 1) none cs

/-- Triple emphasis to combined italic-bold (first substitution). -/
def tripleRule : SubRule :=
  ⟨['*', '*', '*'], ['*', '*', '*'], '*', fun _ => true, fun _ => true,
    ['_', '*'], ['*', '_']⟩

/-- Single emphasis to italic (second substitution), with its lookbehind
and lookahead excluding adjacent stars and underscores. -/
def singleRule : SubRule :=
  ⟨['*'], ['*'], '*',
    fun prev => match prev with
      | some c => !(c = '*' || c = '_')
      | none => true,
    fun next => match next with
      | c :: _ => !(c = '*' || c = '_')
      | [] => true,
    ['_'], ['_']⟩

/-- Double-star emphasis to bold (third substitution). -/
def doubleRule : SubRule :=
  ⟨['*', '*'], ['*', '*'], '*', fun _ => true, fun _ => true, ['*'], ['*']⟩

/-- Double-underscore emphasis to bold (fourth substitution). -/
def underRule : SubRule :=
  ⟨['_', '_'], ['_', '_'], '_', fun _ => true, fun _ => true, ['*'], ['*']⟩

/-- Double tilde to single tilde strikethrough (fifth substitution). -/
def tildeRule : SubRule :=
  ⟨['~', '~'], ['~', '~'], '~', fun _ => true, fun _ => true, ['~'], ['~']⟩

/-- The five substitutions of llm_caller.py lines 30-43, applied in the
source's fixed order to one non-code part. -/
def applyEmphasisRules (cs : List Char) : List Char :=
  runRule tildeRule (runRule underRule (runRule doubleRule
    (runRule singleRule (runRule tripleRule cs))))

/-- Python str.startswith on character lists. -/
def mdStartsWith (p cs : List Char) : Bool := (dropPrefixIfEq p cs).isSome

/-- The per-part step of the loop at llm_caller.py lines 26-44: a part
that starts with a backtick (fenced or inline) is passed through
verbatim; any other part goes through the substitutions. -/
def transformPart (part : List Char) : List Char :=
  if mdStartsWith [btChar, btChar, btChar] part || mdStartsWith [btChar] part then part
  else applyEmphasisRules part

/-- markdown_to_slack (llm_caller.py lines 20-45): split on code spans,
rewrite only the non-code parts, and concatenate. -/
def markdown_to_slack (s : String) : String :=
  let cs := s.toList
  let parts := (splitCodeSpans (cs.length + 1) [] cs).map MdPart.content
  String.mk (parts.foldl (fun acc part => acc ++ transformPart part) [])

/-- One event of the Bedrock converse_stream response.  The three fields
model the three independent key tests of llm_caller.py lines 111-130:
the delta text of a contentBlockDelta, the stopReason of a messageStop,
and the (input, output, total) token counts of a usage metadata event. -/
structure BedrockStreamEvent where
  contentBlockDelta : Option String
  messageStop : Option String
  usage : Option (Nat × Nat × Nat)

/-- The observable calls of one streaming run, in order: opening the
Slack chat stream, consuming one upstream event, appending transcoded
markdown to the stream, logging a stop reason or usage metadata, and
stopping the Slack stream. -/
inductive SlackStreamCall where
  | openStream
  | consume (e : BedrockStreamEvent)
  | appendMarkdown (s : String)
  | logStop (reason : String)
  | logUsage (u : Nat × Nat × Nat)
  | stopStream

/-- The body of the for-loop at llm_caller.py lines 110-130 for one
event: an append of the transcoded delta text, a stop-reason log and a
usage log, each exactly when the corresponding key is present. -/
def handleStreamEvent (e : BedrockStreamEvent) : List SlackStreamCall :=
  (match e.contentBlockDelta with
   | some t => [.appendMarkdown (markdown_to_slack t)]
   | none => []) ++
  (match e.messageStop with
   | some r => [.logStop r]
   | none => []) ++
  (match e.usage with
   | some u => [.logUsage u]
   | none => [])

/-- The calls of the whole for-loop over the upstream events. -/
def streamTrace : List BedrockStreamEvent → List SlackStreamCall
  | [] => []
  | e :: es => .consume e :: (handleStreamEvent e ++ streamTrace es)

/-- The successful path of call_bedrock_stream (llm_caller.py lines
88-135) as its trace of calls: client.chat_stream is opened before the
loop consumes any event, the loop runs when response.get("stream") is
truthy, and streamer.stop() follows the loop exactly once. -/
def call_bedrock_stream (stream : Option (List BedrockStreamEvent)) :
    List SlackStreamCall :=
  .openStream ::
    ((match stream with
      | some es => streamTrace es
      | none => []) ++ [.stopStream])

/-- The texts appended to the Slack stream, in order. -/
def sinkAppends : List SlackStreamCall → List String
  | [] => []
  | .appendMarkdown s :: tr => s :: sinkAppends tr
  | _ :: tr => sinkAppends tr

/-- The delta texts of the upstream events, in order. -/
def deltaTexts : List BedrockStreamEvent → List String
  | [] => []
  | e :: es =>
    (match e.contentBlockDelta with
     | some t => [t]
     | none => []) ++ deltaTexts es

/-- Is this call the stream termination? -/
def isStopStream : SlackStreamCall → Bool
  | .stopStream => true
  | _ => false

/-- The stream of claim C8's example: delta "Hello ", delta "*world*",
then a stop event after the last delta. -/
def demoStreamEvents : List BedrockStreamEvent :=
  [⟨some "Hello ", none, none⟩, ⟨some "*world*", none, none⟩,
   ⟨none, some "end_turn", none⟩]

/-- One turn of the conversation context sent to Bedrock. -/
structure ConversationTurn where
  role : String
  content : Json

/-- One iteration of the loop at assistant.py lines 96-98: role "user"
when message.get("bot_id") is None, "assistant" otherwise; the content
is message["text"], whose absence raises a KeyError. -/
def turnOfMessage (msg : JObj) : Except PyError ConversationTurn :=
  let role := if pyIsNone (lookupKey msg "bot_id") then "user" else "assistant"
  match lookupKey msg "text" with
  | some t => .ok ⟨role, t⟩
  | none => .error .keyError

/-- The whole loop: messages_in_thread starts empty and each fetched
message appends one turn, preserving order. -/
def buildTurns : List JObj → List ConversationTurn → Except PyError (List ConversationTurn)
  | [], acc => .ok acc
  | msg :: msgs, acc =>
    (turnOfMessage msg).bind fun turn => buildTurns msgs (acc ++ [turn])

/-- The arguments of the conversations_replies call at assistant.py lines
89-94. -/
structure RepliesRequest where
  channel : Option String
  ts : Option String
  oldest : Option String
  limit : Nat

/-- The default-path history fetch: anchored at the thread start, oldest
= the thread timestamp, limit 10. -/
def repliesRequest (channelId threadTs : Option String) : RepliesRequest :=
  ⟨channelId, threadTs, threadTs, 10⟩

/-- A two-message thread: a human message and a bot reply. -/
def demoThreadMessages : List JObj :=
  [[("text", Json.str "help me write a doc"), ("user", Json.str "U111")],
   [("text", Json.str "sure, here is a draft"), ("bot_id", Json.str "B42"),
    ("user", Json.str "U999")]]

/-- Does the text not start with a digit?  Boundary condition for number
parsing: the printer never follows a number with a digit. -/
def headNotDigit : List Char → Prop
  | [] => True
  | c :: _ => c.isDigit = false

theorem mk_toList (s : String) : String.mk s.toList = s := by
  cases s; rfl

theorem skipWs_cons {c : Char} (t : List Char) (h : isJsonWs c = false) :
    skipWs (c :: t) = c :: t := by
  simp [skipWs, List.dropWhile, h]

theorem skipWs_space (t : List Char) : skipWs (' ' :: t) = skipWs t := by
  simp [skipWs, List.dropWhile]; rfl

theorem parseStrBody_escape (cs rest : List Char) :
    parseStrBody (escapeChars cs ++ '"' :: rest) = some (cs, rest) := by
  induction cs with
  | nil =>
    show parseStrBody ('"' :: rest) = some ([], rest)
    rw [parseStrBody.eq_def]
    simp
  | cons c cs ih =>
    by_cases h : c = '"' ∨ c = '\\'
    · have he : escapeChars (c :: cs) = '\\' :: c :: escapeChars cs := by
        simp [escapeChars, escChar, h]
      rw [he, List.cons_append, List.cons_append, parseStrBody.eq_def]
      simp [h, ih]
    · have he : escapeChars (c :: cs) = c :: escapeChars cs := by
        simp [escapeChars, escChar, h]
      push_neg at h
      rw [he, List.cons_append, parseStrBody.eq_def]
      simp [h.1, h.2, ih]

theorem digitChar_isDigit {d : Nat} (h : d < 10) : (digitChar d).isDigit = true := by
  interval_cases d <;> decide

theorem digitChar_toNat {d : Nat} (h : d < 10) : (digitChar d).toNat = 48 + d := by
  interval_cases d <;> decide

theorem parseDigits_stop {rest : List Char} (a : Nat) (h : headNotDigit rest) :
    parseDigits a rest = (a, rest) := by
  cases rest with
  | nil => rfl
  | cons c t => simp [parseDigits, headNotDigit] at h ⊢; simp [h]

theorem parseDigits_printNatAux (fuel : Nat) :
    ∀ (m : Nat), m < fuel → ∀ (acc : Nat) (rest : List Char),
      parseDigits acc (printNatAux fuel m ++ rest)
        = parseDigits (acc * 10 ^ (printNatAux fuel m).length + m) rest := by
  induction fuel using Nat.strong_induction_on with
  | _ fuel ih =>
    intro m hm acc rest
    match fuel with
    | f + 1 =>
      by_cases h : m < 10
      · have hp : printNatAux (f + 1) m = [digitChar m] := by simp [printNatAux, h]
        rw [hp]
        simp [parseDigits, digitChar_isDigit h, digitChar_toNat h]
      · have hdiv : m / 10 < m := Nat.div_lt_self (by omega) (by omega)
        have hp : printNatAux (f + 1) m
            = printNatAux f (m / 10) ++ [digitChar (m % 10)] := by
          simp [printNatAux, h]
        rw [hp, List.append_assoc, ih f (by omega) (m / 10) (by omega) acc]
        have hd : (digitChar (m % 10)).isDigit = true := digitChar_isDigit (by omega)
        have ht : (digitChar (m % 10)).toNat = 48 + m % 10 := digitChar_toNat (by omega)
        simp only [List.singleton_append, parseDigits, hd, if_pos, ht]
        have hsub : 48 + m % 10 - 48 = m % 10 := by omega
        have hlen : (printNatAux f (m / 10) ++ [digitChar (m % 10)]).length
            = (printNatAux f (m / 10)).length + 1 := by simp
        have hmm : m / 10 * 10 + m % 10 = m := Nat.div_add_mod' m 10
        have harg : (acc * 10 ^ (printNatAux f (m / 10)).length + m / 10) * 10 + (48 + m % 10 - 48)
            = acc * 10 ^ (printNatAux f (m / 10) ++ [digitChar (m % 10)]).length + m := by
          rw [hsub, hlen, pow_succ]
          calc (acc * 10 ^ (printNatAux f (m / 10)).length + m / 10) * 10 + m % 10
              = acc * (10 ^ (printNatAux f (m / 10)).length * 10) + (m / 10 * 10 + m % 10) := by
                ring
            _ = acc * (10 ^ (printNatAux f (m / 10)).length * 10) + m := by rw [hmm]
        rw [harg]
        rfl

theorem parseDigits_printNat (m : Nat) (acc : Nat) (rest : List Char) :
    parseDigits acc (printNat m ++ rest)
      = parseDigits (acc * 10 ^ (printNat m).length + m) rest :=
  parseDigits_printNatAux (m + 1) m (by omega) acc rest

theorem printNatAux_head (m : Nat) :
    ∀ fuel, m < fuel → ∃ d t, d < 10 ∧ printNatAux fuel m = digitChar d :: t := by
  induction m using Nat.strong_induction_on with
  | _ m ih =>
    intro fuel h
    match fuel with
    | f + 1 =>
      by_cases hm : m < 10
      · exact ⟨m, [], hm, by simp [printNatAux, hm]⟩
      · have hdiv : m / 10 < m := Nat.div_lt_self (by omega) (by omega)
        obtain ⟨d, t, hd, hp⟩ := ih (m / 10) hdiv f (by omega)
        exact ⟨d, t ++ [digitChar (m % 10)], hd, by simp [printNatAux, hm, hp]⟩

theorem printNat_head (m : Nat) : ∃ d t, d < 10 ∧ printNat m = digitChar d :: t :=
  printNatAux_head m (m + 1) (by omega)

theorem parseDigits_printNat_zero (m : Nat) (rest : List Char) (h : headNotDigit rest) :
    parseDigits 0 (printNat m ++ rest) = (m, rest) := by
  rw [parseDigits_printNat]
  simpa using parseDigits_stop m h

theorem parseNum_consumed {m d : Nat} {t : List Char} (rest : List Char) (hd : d < 10)
    (hp : printNat m = digitChar d :: t) (hr : headNotDigit rest) :
    parseDigits ((digitChar d).toNat - 48) (t ++ rest) = (m, rest) := by
  have h0 : parseDigits 0 ((digitChar d :: t) ++ rest)
      = parseDigits ((digitChar d).toNat - 48) (t ++ rest) := by
    simp [parseDigits, digitChar_isDigit hd]
  rw [← h0, ← hp, parseDigits_printNat_zero m rest hr]

theorem printJson_head (j : Json) :
    ∃ c t, printJson j = c :: t ∧ isJsonWs c = false ∧ c ≠ ']' := by
  cases j with
  | null => exact ⟨'n', _, rfl, by decide, by decide⟩
  | bool b => cases b with
    | true => exact ⟨'t', _, rfl, by decide, by decide⟩
    | false => exact ⟨'f', _, rfl, by decide, by decide⟩
  | num n =>
    by_cases hn : n < 0
    · exact ⟨'-', printNat n.natAbs, by simp [printJson, printInt, hn], by decide, by decide⟩
    · obtain ⟨d, t, hd, hp⟩ := printNat_head n.natAbs
      refine ⟨digitChar d, t, by simp [printJson, printInt, hn, hp], ?_, ?_⟩
      · interval_cases d <;> decide
      · interval_cases d <;> decide
  | str s =>
    exact ⟨'"', escapeChars s.toList ++ ['"'], by simp [printJson, printStr], by decide, by decide⟩
  | arr xs => cases xs with
    | nil => exact ⟨'[', _, rfl, by decide, by decide⟩
    | cons x xs => exact ⟨'[', _, rfl, by decide, by decide⟩
  | obj ps =>
    match ps with
    | [] => exact ⟨lbrace, _, rfl, by decide, by decide⟩
    | (k, v) :: ps => exact ⟨lbrace, _, rfl, by decide, by decide⟩

theorem printJson_length_pos (j : Json) : 1 ≤ (printJson j).length := by
  obtain ⟨c, t, hp, -, -⟩ := printJson_head j
  simp [hp]

theorem printArrTail_length_pos (xs : List Json) : 1 ≤ (printArrTail xs).length := by
  cases xs <;> simp [printArrTail]

theorem printObjTail_length_pos (ps : List (String × Json)) :
    1 ≤ (printObjTail ps).length := by
  match ps with
  | [] => simp [printObjTail]
  | (k, v) :: ps => simp [printObjTail]

theorem headNotDigit_arrTail (xs : List Json) (rest : List Char) :
    headNotDigit (printArrTail xs ++ rest) := by
  cases xs <;> rfl

theorem headNotDigit_objTail (ps : List (String × Json)) (rest : List Char) :
    headNotDigit (printObjTail ps ++ rest) := by
  match ps with
  | [] => rfl
  | (k, v) :: ps => rfl

theorem parseVal_ws (fu : Nat) (w : List Char) :
    parseVal fu (' ' :: w) = parseVal fu w := by
  cases fu with
  | zero => rfl
  | succ f => simp only [parseVal, skipWs_space]

/-- The parser recovers exactly what the printer emitted: with enough
fuel, parseVal consumes the printed value and leaves the rest (which
must not start with a digit), and likewise for array and object tails. -/
theorem parse_print (fuel : Nat) :
    (∀ j rest, (printJson j).length ≤ fuel → headNotDigit rest →
        parseVal fuel (printJson j ++ rest) = some (j, rest))
    ∧ (∀ xs rest, (printArrTail xs).length ≤ fuel →
        parseArrTail fuel (printArrTail xs ++ rest) = some (xs, rest))
    ∧ (∀ ps rest, (printObjTail ps).length ≤ fuel →
        parseObjTail fuel (printObjTail ps ++ rest) = some (ps, rest)) := by
  induction fuel with
  | zero =>
    refine ⟨fun j rest hlen _ => ?_, fun xs rest hlen => ?_, fun ps rest hlen => ?_⟩
    · have := printJson_length_pos j; omega
    · have := printArrTail_length_pos xs; omega
    · have := printObjTail_length_pos ps; omega
  | succ f ih =>
    obtain ⟨ihV, ihA, ihO⟩ := ih
    refine ⟨fun j rest hlen hrest => ?_, fun xs rest hlen => ?_, fun ps rest hlen => ?_⟩
    · cases j with
      | null => rfl
      | bool b => cases b <;> rfl
      | num n =>
        by_cases hn : n < 0
        · have hp : printJson (.num n) = '-' :: printNat n.natAbs := by
            simp [printJson, printInt, hn]
          obtain ⟨d, t, hd, hq⟩ := printNat_head n.natAbs
          rw [hp, hq]
          have hdig : (digitChar d).isDigit = true := digitChar_isDigit hd
          simp only [List.cons_append, parseVal,
            skipWs_cons _ (by decide : isJsonWs '-' = false)]
          simp only [show ('-' = 'n') = False by decide, show ('-' = 't') = False by decide,
            show ('-' = 'f') = False by decide, show ('-' = '"') = False by decide,
            show ('-' = '[') = False by decide, show ('-' = lbrace) = False by decide,
            if_false, eq_self_iff_true, if_true]
          simp only [hdig, if_true]
          rw [parseNum_consumed (m := n.natAbs) rest hd hq hrest]
          have hval : (-(n.natAbs : Int)) = n := by omega
          rw [hval]
        · have hp : printJson (.num n) = printNat n.natAbs := by
            simp [printJson, printInt, hn]
          obtain ⟨d, t, hd, hq⟩ := printNat_head n.natAbs
          rw [hp, hq]
          have hdig : (digitChar d).isDigit = true := digitChar_isDigit hd
          have e1 : (digitChar d = 'n') = False := by
            interval_cases d <;> decide
          have e2 : (digitChar d = 't') = False := by
            interval_cases d <;> decide
          have e3 : (digitChar d = 'f') = False := by
            interval_cases d <;> decide
          have e4 : (digitChar d = '"') = False := by
            interval_cases d <;> decide
          have e5 : (digitChar d = '[') = False := by
            interval_cases d <;> decide
          have e6 : (digitChar d = lbrace) = False := by
            interval_cases d <;> decide
          have e7 : (digitChar d = '-') = False := by
            interval_cases d <;> decide
          have hws : isJsonWs (digitChar d) = false := by
            interval_cases d <;> decide
          simp only [List.cons_append, parseVal, skipWs_cons _ hws]
          simp only [e1, e2, e3, e4, e5, e6, e7, if_false, hdig, if_true]
          have h0 : parseDigits ((digitChar d).toNat - 48) (t ++ rest) = (n.natAbs, rest) :=
            parseNum_consumed rest hd hq hrest
          rw [h0]
          have hval : ((n.natAbs : Int)) = n := by omega
          rw [hval]
      | str s =>
        have hp : printJson (.str s) ++ rest
            = '"' :: (escapeChars s.toList ++ '"' :: rest) := by
          simp [printJson, printStr]
        rw [hp]
        simp only [parseVal, skipWs_cons _ (by decide : isJsonWs '"' = false)]
        simp only [show ('"' = 'n') = False by decide, show ('"' = 't') = False by decide,
          show ('"' = 'f') = False by decide, if_false, eq_self_iff_true, if_true]
        rw [parseStrBody_escape]
        simp [mk_toList]
      | arr xs =>
        cases xs with
        | nil => rfl
        | cons x xs =>
          have hp : printJson (.arr (x :: xs)) ++ rest
              = '[' :: (printJson x ++ (printArrTail xs ++ rest)) := by
            simp [printJson]
          have hlen' : (printJson x).length + (printArrTail xs).length + 1 ≤ f + 1 := by
            have h := hlen
            simp only [printJson, List.length_cons, List.length_append] at h
            omega
          have hl1 : (printJson x).length ≤ f := by
            have := printArrTail_length_pos xs; omega
          have hl2 : (printArrTail xs).length ≤ f := by
            have := printJson_length_pos x; omega
          rw [hp]
          simp only [parseVal, skipWs_cons _ (by decide : isJsonWs '[' = false)]
          simp only [show ('[' = 'n') = False by decide, show ('[' = 't') = False by decide,
            show ('[' = 'f') = False by decide, show ('[' = '"') = False by decide,
            if_false, eq_self_iff_true, if_true]
          obtain ⟨c0, t0, hx, hws0, hne0⟩ := printJson_head x
          rw [hx, List.cons_append, skipWs_cons _ hws0]
          simp only [hne0, if_false]
          rw [← List.cons_append, ← hx,
            ihV x (printArrTail xs ++ rest) hl1 (headNotDigit_arrTail xs rest)]
          simp only [ihA xs rest hl2, Option.map_some']
      | obj ps =>
        match ps with
        | [] => rfl
        | (k, v) :: ps =>
          have hp : printJson (.obj ((k, v) :: ps)) ++ rest
              = lbrace :: ('"' :: (escapeChars k.toList
                  ++ '"' :: (':' :: ' ' :: (printJson v ++ (printObjTail ps ++ rest))))) := by
            simp [printJson, printStr]
          have hlen' : (printJson v).length + (printObjTail ps).length + 1 ≤ f + 1 := by
            have h := hlen
            simp only [printJson, printStr, List.length_cons, List.length_append] at h
            omega
          have hl1 : (printJson v).length ≤ f := by
            have := printObjTail_length_pos ps; omega
          have hl2 : (printObjTail ps).length ≤ f := by
            have := printJson_length_pos v; omega
          rw [hp]
          simp only [parseVal, skipWs_cons _ (by decide : isJsonWs lbrace = false)]
          simp only [show (lbrace = 'n') = False by decide,
            show (lbrace = 't') = False by decide, show (lbrace = 'f') = False by decide,
            show (lbrace = '"') = False by decide, show (lbrace = '[') = False by decide,
            if_false, eq_self_iff_true, if_true]
          rw [skipWs_cons _ (by decide : isJsonWs '"' = false)]
          simp only [show ('"' = rbrace) = False by decide, if_false,
            eq_self_iff_true, if_true]
          rw [parseStrBody_escape]
          have hv : parseVal f (' ' :: (printJson v ++ (printObjTail ps ++ rest)))
              = some (v, printObjTail ps ++ rest) := by
            rw [parseVal_ws]
            exact ihV v _ hl1 (headNotDigit_objTail ps rest)
          simp only [hv, ihO ps rest hl2, Option.map_some', mk_toList]
    · cases xs with
      | nil => rfl
      | cons x xs =>
        have hp : printArrTail (x :: xs) ++ rest
            = ',' :: ' ' :: (printJson x ++ (printArrTail xs ++ rest)) := by
          simp [printArrTail]
        have hlen' : (printJson x).length + (printArrTail xs).length + 2 ≤ f + 1 := by
          have h := hlen
          simp only [printArrTail, List.length_cons, List.length_append] at h
          omega
        have hl1 : (printJson x).length ≤ f := by
          have := printArrTail_length_pos xs; omega
        have hl2 : (printArrTail xs).length ≤ f := by
          have := printJson_length_pos x; omega
        rw [hp]
        simp only [parseArrTail, skipWs_cons _ (by decide : isJsonWs ',' = false)]
        simp only [show (',' = ']') = False by decide, if_false, eq_self_iff_true, if_true]
        rw [parseVal_ws,
          ihV x (printArrTail xs ++ rest) hl1 (headNotDigit_arrTail xs rest)]
        simp only [ihA xs rest hl2, Option.map_some']
    · match ps with
      | [] => rfl
      | (k, v) :: ps =>
        have hp : printObjTail ((k, v) :: ps) ++ rest
            = ',' :: ' ' :: ('"' :: (escapeChars k.toList
                ++ '"' :: (':' :: ' ' :: (printJson v ++ (printObjTail ps ++ rest))))) := by
          simp [printObjTail, printStr]
        have hlen' : (printJson v).length + (printObjTail ps).length + 2 ≤ f + 1 := by
          have h := hlen
          simp only [printObjTail, printStr, List.length_cons, List.length_append] at h
          omega
        have hl1 : (printJson v).length ≤ f := by
          have := printObjTail_length_pos ps; omega
        have hl2 : (printObjTail ps).length ≤ f := by
          have := printJson_length_pos v; omega
        rw [hp]
        simp only [parseObjTail, skipWs_cons _ (by decide : isJsonWs ',' = false)]
        simp only [show (',' = rbrace) = False by decide, if_false, eq_self_iff_true, if_true]
        rw [skipWs_space, skipWs_cons _ (by decide : isJsonWs '"' = false)]
        simp only [eq_self_iff_true, if_true]
        rw [parseStrBody_escape]
        have hv : parseVal f (' ' :: (printJson v ++ (printObjTail ps ++ rest)))
            = some (v, printObjTail ps ++ rest) := by
          rw [parseVal_ws]
          exact ihV v _ hl1 (headNotDigit_objTail ps rest)
        simp only [hv, ihO ps rest hl2, Option.map_some', mk_toList]

theorem loads_dumps (j : Json) : loads (dumps j) = some j := by
  have h := (parse_print ((printJson j).length + 2)).1 j [] (by omega) trivial
  rw [List.append_nil] at h
  show (match parseVal ((dumps j).toList.length + 2) (dumps j).toList with
    | some (j, rest) => if skipWs rest = [] then some j else none
    | none => none) = some j
  have hd : (dumps j).toList = printJson j := rfl
  rw [hd]
  rw [h]
  rfl

/-- C1, counterexample: the claim says a top-level legacy method field
alone yields gateway_v1, but on the envelope with only a top-level
httpMethod and no requestContext the classifier returns unknown, because
every positive branch of detect_event_type sits inside the
requestContext check. -/
theorem C1_counterexample :
    detect_event_type [("httpMethod", Json.str "POST")] = .ok "unknown" ∧
    ¬ detect_event_type [("httpMethod", Json.str "POST")] = .ok "api_gateway_v1" := by
  refine ⟨rfl, fun h => ?_⟩
  rw [show detect_event_type [("httpMethod", Json.str "POST")] = .ok "unknown" from rfl] at h
  simp at h

/-- C1, amended: for every envelope whose request-context field is absent
or a JSON object, the classifier agrees with the spec-worded
classification amended to require the request-context field to be
present for all three positive shapes (function_url on http substructure
plus truthy domain, gateway_v2 on http substructure alone, gateway_v1 on
a nested or top-level legacy method field, unknown otherwise). -/
theorem C1_amended (event : JObj)
    (h : lookupKey event "requestContext" = none ∨
      ∃ rc, lookupKey event "requestContext" = some (.obj rc)) :
    detect_event_type event = .ok (detectSpecAmended event) := by
  rcases h with h | ⟨rc, h⟩
  · simp [detect_event_type, detectSpecAmended, h]
  · simp only [detect_event_type, detectSpecAmended, h, jsonHasMember, jsonGet]
    by_cases h1 : hasKey rc "http"
    · by_cases h2 : pyTruthy (lookupKey rc "domainName") <;>
        simp [h1, h2, Except.bind]
    · by_cases h3 : (hasKey rc "httpMethod" || hasKey event "httpMethod") = true <;>
        simp [h1, h3, Except.bind]

/-- C1, witness: the amended classification evaluated on a concrete
Function-URL-shaped envelope. -/
theorem C1_amended_witness :
    detect_event_type
        [("requestContext", Json.obj [("http", Json.obj []),
          ("domainName", Json.str "abc.lambda-url.us-east-1.on.aws")])]
      = .ok (detectSpecAmended
        [("requestContext", Json.obj [("http", Json.obj []),
          ("domainName", Json.str "abc.lambda-url.us-east-1.on.aws")])]) :=
  C1_amended _ (Or.inr ⟨[("http", Json.obj []),
    ("domainName", Json.str "abc.lambda-url.us-east-1.on.aws")], rfl⟩)

/-- C5: classification is claimed to be total, but on the envelope whose
Records collection is present and empty the handler raises an IndexError
while evaluating event.get("Records", [{}])[0] — the defensive default
is dead because the preceding "Records" in event test already passed. -/
theorem C5_empty_records_raises :
    handler ⟨some "https://sqs.example/q"⟩ ⟨"req-1"⟩ [("Records", Json.arr [])]
      = .error .indexError := rfl

/-- C2: for every envelope of one of the three recognized webhook shapes
whose body parses as an object with type "url_verification" and
challenge value c, the handler returns status 200 with body exactly c
and the x-slack-no-retry header, with an empty enqueue list — the
handshake path never reaches the queue. -/
theorem C2_handshake (env : RouterEnv) (ctx : LambdaCtx) (event : JObj) (s : String)
    (bj : JObj) (c : Json) (et : String)
    (hnb : recordsIsBatch event = .ok false)
    (het : detect_event_type event = .ok et)
    (hshape : et = "function_url" ∨ et = "api_gateway_v1" ∨ et = "api_gateway_v2")
    (hbody : lookupKey event "body" = some (.str s))
    (hparse : loads s = some (.obj bj))
    (htype : lookupKey bj "type" = some (.str "url_verification"))
    (hch : lookupKey bj "challenge" = some c) :
    handler env ctx event
      = .ok (.respond ⟨200, [("x-slack-no-retry", "1")], some c⟩ []) := by
  have hs : s ≠ "" := by
    intro hempty
    rw [hempty, show loads "" = none from rfl] at hparse
    cases hparse
  have hcond : (et = "function_url" || et = "api_gateway_v1" || et = "api_gateway_v2") = true := by
    rcases hshape with h | h | h <;> simp [h]
  have hhs : handshakeCheck (lookupKey event "body") = .ok (some (some c)) := by
    rw [hbody]
    simp only [handshakeCheck, hs, if_false, hparse, htype]
    simp [hch]
  simp only [handler, hnb, Except.bind, het, hcond, if_true, hhs]
  simp

/-- C2, witness: the handshake body of the claim, delivered on a
Function-URL-shaped envelope, answered with 200/"abc123" and no
enqueue. -/
theorem C2_handshake_witness :
    handler ⟨some "https://sqs.example/q"⟩ ⟨"req-1"⟩ demoHandshakeEvent
      = .ok (.respond ⟨200, [("x-slack-no-retry", "1")], some (Json.str "abc123")⟩ []) :=
  C2_handshake ⟨some "https://sqs.example/q"⟩ ⟨"req-1"⟩ demoHandshakeEvent
    "\x7b\"type\": \"url_verification\", \"challenge\": \"abc123\"\x7d"
    [("type", Json.str "url_verification"), ("challenge", Json.str "abc123")]
    (Json.str "abc123") "function_url"
    rfl rfl (Or.inl rfl) rfl rfl rfl rfl

/-- C3: whenever the handler responds having enqueued anything, the single
queued message body is the whole original envelope serialized with
dumps, and both the queue-consumer deserialization of record_handler and
loads itself recover exactly the original envelope. -/
theorem C3_roundTrip (env : RouterEnv) (ctx : LambdaCtx) (event : JObj)
    (r : HttpResponse) (msgs : List (String × Option String))
    (h : handler env ctx event = .ok (.respond r msgs)) (hne : msgs ≠ []) :
    ∃ gid, msgs = [(dumps (.obj event), gid)]
      ∧ record_handler_event (dumps (.obj event)) = some (.obj event)
      ∧ loads (dumps (.obj event)) = some (.obj event) := by
  have hrt := loads_dumps (.obj event)
  cases hb : recordsIsBatch event with
  | error e => simp only [handler, hb, Except.bind] at h; exact Except.noConfusion h
  | ok b =>
    cases b with
    | true => simp [handler, hb, Except.bind] at h
    | false =>
      simp only [handler, hb, Except.bind, Bool.false_eq_true, reduceIte] at h
      cases hd : detect_event_type event with
      | error e => simp only [hd] at h; exact Except.noConfusion h
      | ok et =>
        simp only [hd] at h
        by_cases hc : (et = "function_url" || et = "api_gateway_v1" || et = "api_gateway_v2") = true
        · rw [if_pos hc] at h
          cases hh : handshakeCheck (lookupKey event "body") with
          | error e => simp only [hh] at h; exact Except.noConfusion h
          | ok hs =>
            simp only [hh] at h
            cases hs with
            | some ch =>
              simp at h
              first
              | exact absurd h.2 hne
              | exact absurd h.2.symm hne
            | none =>
              simp only [Except.ok.injEq] at h
              cases hq : env.sqs_queue_url with
              | none => simp only [enqueueOrFallback, hq] at h; cases h
              | some url =>
                simp only [enqueueOrFallback, hq] at h
                by_cases hu : url ≠ ""
                · rw [if_pos hu] at h
                  cases h
                  exact ⟨if pyEndsWith url ".fifo" then some ctx.aws_request_id else none,
                    rfl, hrt, hrt⟩
                · rw [if_neg hu] at h; cases h
        · rw [if_neg hc] at h
          simp at h
          first
          | exact absurd h.2 hne
          | exact absurd h.2.symm hne

/-- C3, witness: a concrete non-handshake envelope takes the enqueue path
and its queued body decodes back to the original envelope. -/
theorem C3_roundTrip_witness :
    ∃ gid, [(dumps (Json.obj demoEnqueueEvent), (none : Option String))]
        = [(dumps (Json.obj demoEnqueueEvent), gid)]
      ∧ record_handler_event (dumps (Json.obj demoEnqueueEvent))
          = some (Json.obj demoEnqueueEvent)
      ∧ loads (dumps (Json.obj demoEnqueueEvent)) = some (Json.obj demoEnqueueEvent) :=
  C3_roundTrip ⟨some "https://sqs.example/q"⟩ ⟨"req-1"⟩ demoEnqueueEvent
    ⟨200, [], some (Json.str "")⟩ [(dumps (Json.obj demoEnqueueEvent), none)]
    rfl (by simp)

/-- C4, amended: for every recognized-shape envelope whose body either
fails to parse as structured data or parses as a mapping without the
handshake type, the handler does not fail: it returns exactly the
fall-through result (enqueue or synchronous fallback), and whenever that
result is a direct response its status is 200.  (A body parsing to a
non-mapping value instead raises an uncaught AttributeError; see the
counterexample.) -/
theorem C4_nonhandshake_swallowed (env : RouterEnv) (ctx : LambdaCtx) (event : JObj)
    (et : String) (s : String)
    (hnb : recordsIsBatch event = .ok false)
    (het : detect_event_type event = .ok et)
    (hshape : et = "function_url" ∨ et = "api_gateway_v1" ∨ et = "api_gateway_v2")
    (hbody : lookupKey event "body" = some (.str s))
    (hnh : loads s = none ∨ ∃ o, loads s = some (.obj o) ∧
        ∀ t, lookupKey o "type" = some (.str t) → t ≠ "url_verification") :
    handler env ctx event = .ok (enqueueOrFallback env ctx event)
      ∧ (∀ r q, enqueueOrFallback env ctx event = .respond r q → r.statusCode = 200) := by
  have hcond : (et = "function_url" || et = "api_gateway_v1" || et = "api_gateway_v2") = true := by
    rcases hshape with h | h | h <;> simp [h]
  have hhs : handshakeCheck (lookupKey event "body") = .ok none := by
    rw [hbody]
    by_cases hs : s = ""
    · simp [handshakeCheck, hs]
    · rcases hnh with hn | ⟨o, ho, ht⟩
      · simp [handshakeCheck, hs, hn]
      · simp only [handshakeCheck, hs, if_false, ho]
        cases hty : lookupKey o "type" with
        | none => simp
        | some tv =>
          cases tv with
          | str t => simp [ht t hty]
          | null => simp
          | bool b => simp
          | num n => simp
          | arr xs => simp
          | obj ps => simp
  refine ⟨by simp only [handler, hnb, Except.bind, het, hcond, if_true, hhs]; simp, ?_⟩
  intro r q hr
  cases hq : env.sqs_queue_url with
  | none => simp only [enqueueOrFallback, hq] at hr; cases hr
  | some url =>
    simp only [enqueueOrFallback, hq] at hr
    by_cases hu : url ≠ ""
    · rw [if_pos hu] at hr; cases hr; rfl
    · rw [if_neg hu] at hr; cases hr

/-- C4, counterexample: a body that is valid JSON but not a mapping - the
array "[1,2]" - is parseable yet makes body_json.get raise an uncaught
AttributeError, so the router does fail on this malformed-for-handshake
content instead of falling through. -/
theorem C4_counterexample :
    handler ⟨some "https://sqs.example/q"⟩ ⟨"req-1"⟩
      [("requestContext", Json.obj [("http", Json.obj [])]), ("body", Json.str "[1,2]")]
      = .error .attributeError := rfl

/-- C4, witness: a non-JSON body on a gateway-v2-shaped envelope is
swallowed and the handler returns the fall-through result. -/
theorem C4_nonhandshake_witness :
    handler ⟨some "https://sqs.example/q"⟩ ⟨"req-1"⟩ demoEnqueueEvent
      = .ok (enqueueOrFallback ⟨some "https://sqs.example/q"⟩ ⟨"req-1"⟩ demoEnqueueEvent)
      ∧ (∀ r q, enqueueOrFallback ⟨some "https://sqs.example/q"⟩ ⟨"req-1"⟩ demoEnqueueEvent
          = .respond r q → r.statusCode = 200) :=
  C4_nonhandshake_swallowed ⟨some "https://sqs.example/q"⟩ ⟨"req-1"⟩ demoEnqueueEvent
    "api_gateway_v2" "x" rfl rfl (Or.inr (Or.inr rfl)) rfl (Or.inl rfl)

theorem matchFence_starts (cs sep r : List Char)
    (h : matchFence cs = some (sep, r)) : mdStartsWith [btChar] sep = true := by
  unfold matchFence at h
  split at h
  · split at h
    · rw [Option.map_eq_some'] at h
      obtain ⟨u, -, hv⟩ := h
      have hs : sep = btChar :: btChar :: btChar :: (u.1 ++ [btChar, btChar, btChar]) :=
        (congrArg Prod.fst hv).symm
      rw [hs]
      simp [mdStartsWith, dropPrefixIfEq]
    · cases h
  · cases h

theorem matchInline_starts (cs sep r : List Char)
    (h : matchInline cs = some (sep, r)) : mdStartsWith [btChar] sep = true := by
  unfold matchInline at h
  split at h
  · cases h
  · split at h
    · rw [Option.map_eq_some'] at h
      obtain ⟨u, -, hv⟩ := h
      have hs : sep = btChar :: (u.1 ++ [btChar]) := (congrArg Prod.fst hv).symm
      rw [hs]
      simp [mdStartsWith, dropPrefixIfEq]
    · cases h

theorem splitCodeSpans_code_starts :
    ∀ (fuel : Nat) (acc cs c : List Char),
      MdPart.code c ∈ splitCodeSpans fuel acc cs → mdStartsWith [btChar] c = true := by
  intro fuel
  induction fuel with
  | zero => intro acc cs c h; simp [splitCodeSpans] at h
  | succ f ih =>
    intro acc cs c h
    cases cs with
    | nil => simp [splitCodeSpans] at h
    | cons x rest =>
      rw [splitCodeSpans] at h
      cases hf : matchFence (x :: rest) with
      | some pr =>
        rw [hf] at h
        simp only [List.mem_cons] at h
        rcases h with h | h | h
        · cases h
        · cases h; exact matchFence_starts _ _ _ hf
        · exact ih [] pr.2 c h
      | none =>
        rw [hf] at h
        cases hi : matchInline (x :: rest) with
        | some pr =>
          rw [hi] at h
          simp only [List.mem_cons] at h
          rcases h with h | h | h
          · cases h
          · cases h; exact matchInline_starts _ _ _ hi
          · exact ih [] pr.2 c h
        | none =>
          rw [hi] at h
          exact ih (x :: acc) rest c h

theorem foldl_append_congr (L : List MdPart) (f g : MdPart → List Char)
    (h : ∀ p ∈ L, f p = g p) :
    ∀ acc, L.foldl (fun a p => a ++ f p) acc = L.foldl (fun a p => a ++ g p) acc := by
  induction L with
  | nil => intro acc; rfl
  | cons p L ih =>
    intro acc
    simp only [List.foldl_cons, h p (List.mem_cons_self p L)]
    exact ih (fun q hq => h q (List.mem_cons_of_mem p hq)) _

/-- C7: for every input, the transcoder's output is the concatenation in
which every captured code span (fenced block or inline span) contributes
its characters verbatim and only the text parts are rewritten; in
particular the inline span of "`*not italic*`" survives unchanged even
though its content looks like emphasis. -/
theorem C7_code_spans_preserved :
    (∀ s : String, markdown_to_slack s
      = String.mk ((splitCodeSpans (s.toList.length + 1) [] s.toList).foldl
          (fun acc p => acc ++ match p with | .code c => c | .text t => transformPart t) []))
    ∧ markdown_to_slack "`*not italic*`" = "`*not italic*`" := by
  constructor
  · intro s
    unfold markdown_to_slack
    dsimp only []
    congr 1
    rw [List.foldl_map]
    apply foldl_append_congr
    intro p hp
    cases p with
    | text t => rfl
    | code c =>
      have hb := splitCodeSpans_code_starts _ _ _ _ hp
      show transformPart c = c
      simp [transformPart, hb]
  · rfl

/-- C7, witness: the code-span-preserving decomposition evaluated on a
concrete mixed input, together with the claim's example. -/
theorem C7_witness :
    markdown_to_slack "`a` *b*"
      = String.mk ((splitCodeSpans ("`a` *b*".toList.length + 1) [] "`a` *b*".toList).foldl
          (fun acc p => acc ++ match p with | .code c => c | .text t => transformPart t) [])
      ∧ markdown_to_slack "`*not italic*`" = "`*not italic*`" :=
  ⟨C7_code_spans_preserved.1 "`a` *b*", C7_code_spans_preserved.2⟩

/-- C10: any split part that begins with a backtick - including the
trailing part opened by an unpaired backtick - is passed through
entirely unrewritten, so the unclosed "`*x*" keeps its would-be
emphasis untouched. -/
theorem C10_unclosed_backtick_passthrough :
    (∀ part : List Char, mdStartsWith [btChar] part = true → transformPart part = part)
    ∧ markdown_to_slack "`*x*" = "`*x*" :=
  ⟨fun part h => by simp [transformPart, h], rfl⟩

/-- C10, witness: the pass-through evaluated on a concrete
backtick-headed part. -/
theorem C10_witness :
    transformPart (btChar :: '*' :: 'x' :: '*' :: [])
        = btChar :: '*' :: 'x' :: '*' :: []
      ∧ markdown_to_slack "`*x*" = "`*x*" :=
  ⟨C10_unclosed_backtick_passthrough.1 _ rfl, C10_unclosed_backtick_passthrough.2⟩

/-- C6: the transcoder's substitutions on concrete inputs - bold, italic,
combined, strikethrough, the second bold notation, an untouched platform
entity reference, and the whitespace and emptiness guards that keep
stray delimiters alone. -/
theorem C6_transcoding_examples :
    markdown_to_slack "**bold**" = "*bold*"
    ∧ markdown_to_slack "*italic*" = "_italic_"
    ∧ markdown_to_slack "***both***" = "_*both*_"
    ∧ markdown_to_slack "~~gone~~" = "~gone~"
    ∧ markdown_to_slack "__dunder__" = "*dunder*"
    ∧ markdown_to_slack "<@U123>" = "<@U123>"
    ∧ markdown_to_slack "** notbold**" = "** notbold**"
    ∧ markdown_to_slack "*notitalic *" = "*notitalic *"
    ∧ markdown_to_slack "****" = "****"
    ∧ markdown_to_slack "~~ nostrike~~" = "~~ nostrike~~" :=
  ⟨rfl, rfl, rfl, rfl, rfl, rfl, rfl, rfl, rfl, rfl⟩

theorem sinkAppends_append (a b : List SlackStreamCall) :
    sinkAppends (a ++ b) = sinkAppends a ++ sinkAppends b := by
  induction a with
  | nil => rfl
  | cons x a ih =>
    cases x <;> simp [sinkAppends, ih]

theorem sinkAppends_handle (e : BedrockStreamEvent) :
    sinkAppends (handleStreamEvent e)
      = (match e.contentBlockDelta with
         | some t => [markdown_to_slack t]
         | none => []) := by
  obtain ⟨d, m, u⟩ := e
  cases d <;> cases m <;> cases u <;> rfl

theorem filter_stop_handle (e : BedrockStreamEvent) :
    (handleStreamEvent e).filter isStopStream = [] := by
  obtain ⟨d, m, u⟩ := e
  cases d <;> cases m <;> cases u <;> rfl

theorem filter_stop_trace (es : List BedrockStreamEvent) :
    (streamTrace es).filter isStopStream = [] := by
  induction es with
  | nil => rfl
  | cons e es ih =>
    simp [streamTrace, List.filter_append, filter_stop_handle, ih, isStopStream]

theorem sinkAppends_trace (es : List BedrockStreamEvent) :
    sinkAppends (streamTrace es) = (deltaTexts es).map markdown_to_slack := by
  induction es with
  | nil => rfl
  | cons e es ih =>
    show sinkAppends (.consume e :: (handleStreamEvent e ++ streamTrace es)) = _
    rw [show sinkAppends (.consume e :: (handleStreamEvent e ++ streamTrace es))
        = sinkAppends (handleStreamEvent e ++ streamTrace es) from rfl]
    rw [sinkAppends_append, sinkAppends_handle, ih]
    cases hd : e.contentBlockDelta <;> simp [deltaTexts, hd]

/-- C8: for every successful streaming run, the sink session is opened
before any upstream event is consumed (it is the first call of the
trace), each content delta produces exactly one append carrying the
transcoded text in upstream order, the sink is terminated exactly once
and as the last call, and on the deltas "Hello " then "*world*" followed
by a stop event the trace is exactly open, the two ordered appends
"Hello " and "_world_", the stop-reason log, and one terminate. -/
theorem C8_stream_bridge (es : List BedrockStreamEvent) :
    (call_bedrock_stream (some es)).head? = some .openStream
    ∧ sinkAppends (call_bedrock_stream (some es)) = (deltaTexts es).map markdown_to_slack
    ∧ ((call_bedrock_stream (some es)).filter isStopStream).length = 1
    ∧ (call_bedrock_stream (some es)).getLast? = some .stopStream
    ∧ call_bedrock_stream (some demoStreamEvents)
        = [.openStream,
           .consume ⟨some "Hello ", none, none⟩, .appendMarkdown "Hello ",
           .consume ⟨some "*world*", none, none⟩, .appendMarkdown "_world_",
           .consume ⟨none, some "end_turn", none⟩, .logStop "end_turn",
           .stopStream] := by
  refine ⟨rfl, ?_, ?_, ?_, rfl⟩
  · show sinkAppends (.openStream :: (streamTrace es ++ [.stopStream])) = _
    rw [show sinkAppends (.openStream :: (streamTrace es ++ [.stopStream]))
        = sinkAppends (streamTrace es ++ [.stopStream]) from rfl]
    rw [sinkAppends_append, sinkAppends_trace]
    simp [sinkAppends]
  · show ((SlackStreamCall.openStream :: (streamTrace es ++ [.stopStream])).filter
        isStopStream).length = 1
    rw [List.filter_cons]
    simp only [List.filter_append, filter_stop_trace, isStopStream]
    rfl
  · show (SlackStreamCall.openStream :: (streamTrace es ++ [.stopStream])).getLast?
      = some .stopStream
    rw [show SlackStreamCall.openStream :: (streamTrace es ++ [.stopStream])
        = (SlackStreamCall.openStream :: streamTrace es) ++ [.stopStream] from by simp]
    exact List.getLast?_concat _

theorem turnOfMessage_spec (msg : JObj) (turn : ConversationTurn)
    (h : turnOfMessage msg = .ok turn) :
    turn.role = (if pyIsNone (lookupKey msg "bot_id") then "user" else "assistant")
    ∧ lookupKey msg "text" = some turn.content := by
  cases hx : lookupKey msg "text" with
  | none =>
    simp only [turnOfMessage, hx] at h
    exact Except.noConfusion h
  | some t =>
    simp only [turnOfMessage, hx] at h
    cases h
    exact ⟨rfl, rfl⟩

theorem buildTurns_acc :
    ∀ (msgs : List JObj) (acc turns : List ConversationTurn),
      buildTurns msgs acc = .ok turns →
      ∃ rest, turns = acc ++ rest ∧ rest.length = msgs.length ∧
        ∀ i (hi : i < rest.length) (hm : i < msgs.length),
          turnOfMessage (msgs.get ⟨i, hm⟩) = .ok (rest.get ⟨i, hi⟩) := by
  intro msgs
  induction msgs with
  | nil =>
    intro acc turns h
    cases h
    exact ⟨[], by simp, rfl, fun i hi hm => absurd hi (by simp)⟩
  | cons m ms ih =>
    intro acc turns h
    cases ht : turnOfMessage m with
    | error e => rw [buildTurns, ht] at h; exact Except.noConfusion h
    | ok turn =>
      rw [buildTurns, ht] at h
      obtain ⟨rest, hturns, hlen, hidx⟩ := ih (acc ++ [turn]) turns h
      refine ⟨turn :: rest, by simp [hturns], by simp [hlen], ?_⟩
      intro i hi hm
      cases i with
      | zero => exact ht
      | succ i => exact hidx i (by simpa using hi) (by simpa using hm)

/-- C9: whenever the thread-history loop succeeds, it yields one turn per
fetched message in the original order, the role of the i-th turn is
assistant exactly when the i-th message carries a bot attribution (and
user otherwise), the content is the message's text, and the default
history fetch is limited to 10 messages. -/
theorem C9_role_mapping (msgs : List JObj) (turns : List ConversationTurn)
    (h : buildTurns msgs [] = .ok turns) :
    turns.length = msgs.length
    ∧ (∀ i (hi : i < turns.length) (hm : i < msgs.length),
        (turns.get ⟨i, hi⟩).role
          = (if pyIsNone (lookupKey (msgs.get ⟨i, hm⟩) "bot_id") then "user"
             else "assistant")
        ∧ lookupKey (msgs.get ⟨i, hm⟩) "text" = some (turns.get ⟨i, hi⟩).content)
    ∧ (∀ c t, (repliesRequest c t).limit = 10) := by
  obtain ⟨rest, hturns, hlen, hidx⟩ := buildTurns_acc msgs [] turns h
  have heq : turns = rest := by simpa using hturns
  subst heq
  refine ⟨hlen, ?_, fun c t => rfl⟩
  intro i hi hm
  exact turnOfMessage_spec _ _ (hidx i hi hm)

/-- C9, witness: the two-message demo thread builds a user turn followed
by an assistant turn. -/
theorem C9_role_mapping_witness :
    ∃ turns, buildTurns demoThreadMessages [] = .ok turns
      ∧ turns.length = demoThreadMessages.length := by
  refine ⟨[⟨"user", Json.str "help me write a doc"⟩,
    ⟨"assistant", Json.str "sure, here is a draft"⟩], rfl, ?_⟩
  exact (C9_role_mapping demoThreadMessages _ rfl).1
